import Mathlib

/-!
Verification of the SmartScope diagnostic tools (camera_diagnosis.py,
depth_calibration_diagnosis.py, depth_analysis.py).

The Python scripts are shallowly embedded over exact rationals: numpy
float arrays become `List ℚ` (row-major, wrapped with grid dimensions in
`DepthMap`), integer pixel rectangles become `ROI` over `ℤ`, square
roots (numpy `std`, `linalg.norm`, RMS) are kept symbolic via
`Real.sqrt` applied to rational variance/sum-of-squares values that the
embedding computes exactly.  Print-based reporting in the scripts is
modelled by returning the printed/returned quantities as structure
fields.
-/

/-- Axis-aligned pixel rectangle `(x, y, w, h)` as produced by
`cv.stereoRectify` in camera_diagnosis.py. -/
structure ROI where
  x : ℤ
  y : ℤ
  w : ℤ
  h : ℤ
deriving DecidableEq, Repr

/-- Outcome of the per-resolution ROI comparison in
`analyze_roi_consistency` (camera_diagnosis.py, lines 142-168):
either the two ROIs agree in size, or the positive-area overlap
rectangle is reported, or a suggested common size is reported. -/
inductive RoiCheck where
  | consistent : RoiCheck
  | unified : ℤ → ℤ → ℤ → ℤ → RoiCheck
  | suggested : ℤ → ℤ → RoiCheck
deriving DecidableEq, Repr

/-- Embedding of the ROI-consistency check body of
`analyze_roi_consistency` (camera_diagnosis.py lines 142-168): if the
widths or heights differ, compute the overlap rectangle of the two
ROIs; report it when it is non-degenerate, otherwise report the
element-wise minimum width and height. -/
def analyze_roi_consistency (r1 r2 : ROI) : RoiCheck :=
  if r1.w ≠ r2.w ∨ r1.h ≠ r2.h then
    let ox1 := max r1.x r2.x
    let oy1 := max r1.y r2.y
    let ox2 := min (r1.x + r1.w) (r2.x + r2.w)
    let oy2 := min (r1.y + r1.h) (r2.y + r2.h)
    if ox2 > ox1 ∧ oy2 > oy1 then
      RoiCheck.unified ox1 oy1 (ox2 - ox1) (oy2 - oy1)
    else
      RoiCheck.suggested (min r1.w r2.w) (min r1.h r2.h)
  else
    RoiCheck.consistent

/-- The numeric analysis fields consumed by
`suggest_calibration_parameters` (depth_calibration_diagnosis.py lines
212-239).  Each field is optional, mirroring the `'key' in
analysis_results` membership checks on the merged result dictionary:
`stdR` is the dictionary entry `std_ratio`, `largeDiffPct` is
`large_diff_ratio` (a percentage), `rmsErr` is `rms_error`. -/
structure AnalysisNums where
  stdR : Option ℚ
  largeDiffPct : Option ℚ
  rmsErr : Option ℚ

/-- One advisory line printed by `suggest_calibration_parameters`:
each rule either fires with its suggested parameter or prints a
"no action needed" note. -/
inductive Advice where
  | ransacLower : ℚ → Advice
  | ransacKeep : Advice
  | outlierEnable : ℚ → Advice
  | outlierSkip : Advice
  | layered : ℕ → Advice
  | linearOk : Advice
deriving DecidableEq, Repr

/-- Embedding of `suggest_calibration_parameters`
(depth_calibration_diagnosis.py lines 212-239): three independent
threshold rules over the merged analysis dictionary. -/
def suggest_calibration_parameters (a : AnalysisNums) : List Advice :=
  (match a.stdR with
   | some s => if s > 0.2 then [Advice.ransacLower (max 5 (s * 100))] else [Advice.ransacKeep]
   | none => []) ++
  (match a.largeDiffPct with
   | some p => if p > 20 then [Advice.outlierEnable 2] else [Advice.outlierSkip]
   | none => []) ++
  (match a.rmsErr with
   | some e => if e > 20 then [Advice.layered 5] else [Advice.linearOk]
   | none => [])

/-- A depth map: a 2D numeric grid in millimeters, stored row-major.
Values `≤ 0` are the invalid-sample sentinel (`depth_map > 0` masks in
depth_calibration_diagnosis.py). -/
structure DepthMap where
  rows : ℕ
  cols : ℕ
  data : List ℚ
deriving DecidableEq, Repr

/-- The list of valid (strictly positive) samples of a depth map:
`depth_map[depth_map > 0]` flattened row-major. -/
def validDepths (d : DepthMap) : List ℚ :=
  d.data.filter fun x => decide (0 < x)

/-- Source horizontal/vertical coordinate used by OpenCV's bilinear
`cv2.resize` (pixel-center alignment): the destination pixel `dst`
maps to `(dst + 1/2) · srcN/dstN − 1/2` in source coordinates. -/
def srcCoord (dst srcN dstN : ℕ) : ℚ :=
  ((dst : ℚ) + 1/2) * srcN / dstN - 1/2

/-- Sample a depth map at integer coordinates with border replication
(clamping), as OpenCV does at image edges during interpolation. -/
def getClamped (m : DepthMap) (r c : ℤ) : ℚ :=
  let r2 := (max 0 (min r ((m.rows : ℤ) - 1))).toNat
  let c2 := (max 0 (min c ((m.cols : ℤ) - 1))).toNat
  m.data.getD (r2 * m.cols + c2) 0

/-- Exact-arithmetic model of `cv2.resize(m, (newCols, newRows))` with
the default `INTER_LINEAR` (bilinear) interpolation, used by
`compare_depth_maps` (depth_calibration_diagnosis.py line 112) to
equalize grid dimensions. -/
def bilinearResize (m : DepthMap) (newRows newCols : ℕ) : DepthMap :=
  { rows := newRows
    cols := newCols
    data := (List.range (newRows * newCols)).map fun i =>
      let r := i / newCols
      let c := i % newCols
      let sy := srcCoord r m.rows newRows
      let sx := srcCoord c m.cols newCols
      let y0 : ℤ := ⌊sy⌋
      let x0 : ℤ := ⌊sx⌋
      let fy : ℚ := sy - y0
      let fx : ℚ := sx - x0
      (1 - fy) * ((1 - fx) * getClamped m y0 x0 + fx * getClamped m y0 (x0 + 1)) +
        fy * ((1 - fx) * getClamped m (y0 + 1) x0 + fx * getClamped m (y0 + 1) (x0 + 1)) }

/-- The jointly valid `(mono, stereo)` sample pairs: positions where
both maps are strictly positive (`mono_valid & stereo_valid` masking in
depth_calibration_diagnosis.py lines 114-128 and 170-179). -/
def jointValidPairs (mono stereo : DepthMap) : List (ℚ × ℚ) :=
  (mono.data.zip stereo.data).filter fun p => decide (0 < p.1) && decide (0 < p.2)

/-- Result dictionary of `compare_depth_maps`
(depth_calibration_diagnosis.py lines 155-162).  numpy's standard
deviations are square roots of the exact variances recorded here
(`ratioVar`, `diffVar`); `largeDiffPct` is the percentage of jointly
valid samples with `|stereo − mono| > 50` mm. -/
structure CompareResult where
  ratioMean : ℚ
  ratioVar : ℚ
  diffMean : ℚ
  diffVar : ℚ
  maxAbsDiff : ℚ
  largeDiffPct : ℚ
deriving DecidableEq, Repr

/-- The dimension check and resampling step of `compare_depth_maps`
(depth_calibration_diagnosis.py lines 108-112): the second map is kept
as-is when the grid dimensions already agree, otherwise it is resized
onto the first map's dimensions with bilinear `cv2.resize`. -/
def resizeToMatch (mono stereo : DepthMap) : DepthMap :=
  if mono.rows = stereo.rows ∧ mono.cols = stereo.cols then stereo
  else bilinearResize stereo mono.rows mono.cols

/-- The statistics step of `compare_depth_maps`
(depth_calibration_diagnosis.py lines 114-162), after dimensions have
been equalized: `none` when no jointly valid sample exists. -/
def compareStats (mono stereo2 : DepthMap) : Option CompareResult :=
  let pairs := jointValidPairs mono stereo2
  if pairs = [] then none
  else
    let n : ℚ := pairs.length
    let ratios := pairs.map fun p => p.2 / p.1
    let rMean := ratios.sum / n
    let diffs := pairs.map fun p => p.2 - p.1
    let dMean := diffs.sum / n
    some
      { ratioMean := rMean
        ratioVar := (ratios.map fun r => (r - rMean) ^ 2).sum / n
        diffMean := dMean
        diffVar := (diffs.map fun x => (x - dMean) ^ 2).sum / n
        maxAbsDiff := (diffs.map abs).foldr max 0
        largeDiffPct := ((diffs.filter fun x => decide (50 < |x|)).length : ℚ) / n * 100 }

/-- Embedding of `compare_depth_maps` (depth_calibration_diagnosis.py
lines 100-162): equalize grid dimensions, then compute the cross-map
statistics over the jointly valid pairs. -/
def compare_depth_maps (mono stereo : DepthMap) : Option CompareResult :=
  compareStats mono (resizeToMatch mono stereo)

/-- Result dictionary of `analyze_calibration_quality`
(depth_calibration_diagnosis.py lines 203-208).  `msError` is the mean
squared residual; the reported RMS error is its square root. -/
structure FitResult where
  scale_factor : ℚ
  bias : ℚ
  msError : ℚ
  max_error : ℚ
deriving DecidableEq, Repr

/-- Degree-1 `np.polyfit` over paired samples `(x, y)` in exact
arithmetic.  When the least-squares system is full-rank
(`n·Σx² − (Σx)² ≠ 0`) this is the unique line `y ≈ a·x + b` minimizing
the squared residuals.  When all `x` coincide (rank-deficient case,
reached by `analyze_calibration_quality` for zero-variance mono input)
numpy still returns a solution — the minimum-norm least-squares
solution of the column-normalized system, which for constant `x = c`
is `a = ȳ/(2c)`, `b = ȳ/2`; `x = 0` cannot occur for valid depth pairs
(the joint mask requires `x > 0`). -/
def polyfit1 (pairs : List (ℚ × ℚ)) : ℚ × ℚ :=
  let n : ℚ := pairs.length
  let sx := (pairs.map fun p => p.1).sum
  let sy := (pairs.map fun p => p.2).sum
  let sxx := (pairs.map fun p => p.1 ^ 2).sum
  let sxy := (pairs.map fun p => p.1 * p.2).sum
  let det := n * sxx - sx ^ 2
  if det ≠ 0 then ((n * sxy - sx * sy) / det, (sxx * sy - sx * sxy) / det)
  else
    let c := (pairs.map fun p => p.1).headD 0
    (sy / n / (2 * c), sy / n / 2)

/-- Embedding of `analyze_calibration_quality` with
`calibration_result=None` (depth_calibration_diagnosis.py lines
164-208): a linear `np.polyfit` of stereo against mono over the
jointly valid pairs, with residual statistics; the only guarded
degenerate case in the source is zero jointly valid samples. -/
def analyze_calibration_quality (mono stereo : DepthMap) : Option FitResult :=
  let pairs := jointValidPairs mono stereo
  if pairs = [] then none
  else
    let (scale, b) := polyfit1 pairs
    let residuals := pairs.map fun p => p.2 - (scale * p.1 + b)
    some
      { scale_factor := scale
        bias := b
        msError := (residuals.map fun r => r ^ 2).sum / (pairs.length : ℚ)
        max_error := (residuals.map abs).foldr max 0 }

/-- Bin index of sample `x` in a 50-bin uniform histogram over
`[lo, hi]`, following `np.histogram` semantics in exact arithmetic:
bin `i` covers `[edge i, edge (i+1))`, the last bin also includes
`hi`. -/
def binIdx (lo hi x : ℚ) : ℕ :=
  min (⌊(x - lo) * 50 / (hi - lo)⌋.toNat) 49

/-- Edge `i` of the 50-bin uniform histogram over `[lo, hi]`
(`np.linspace lo hi 51`). -/
def binEdge (lo hi : ℚ) (i : ℕ) : ℚ :=
  lo + i * (hi - lo) / 50

/-- The histogram range `np.histogram` actually uses: the data range
`[min, max]`, widened to `[v − 1/2, v + 1/2]` when the range is
degenerate (all samples equal `v`). -/
def histRange (lo hi : ℚ) : ℚ × ℚ :=
  if lo = hi then (lo - 1/2, lo + 1/2) else (lo, hi)

/-- The 50 bin counts of `np.histogram(v, bins=50)` over range
`[lo, hi]`. -/
def histCounts (v : List ℚ) (lo hi : ℚ) : List ℕ :=
  (List.range 50).map fun i => (v.filter fun x => decide (binIdx lo hi x = i)).length

/-- Running state step of `np.argmax`: scan the remaining list,
replacing the recorded `(index, value)` exactly on strict
improvement, so the first occurrence of the maximum wins. -/
def argmaxAux : List ℕ → ℕ → ℕ × ℕ → ℕ × ℕ
  | [], _, s => s
  | x :: xs, i, (best, bv) =>
    if bv < x then argmaxAux xs (i + 1) (i, x) else argmaxAux xs (i + 1) (best, bv)

/-- Index of the first maximal element of a list (`np.argmax`). -/
def argmaxFirst : List ℕ → ℕ
  | [] => 0
  | x :: xs => (argmaxAux xs 1 (0, x)).1

/-- Minimum of a nonempty list (`np.min`); 0 for the empty list. -/
def listMin : List ℚ → ℚ
  | [] => 0
  | x :: xs => xs.foldl min x

/-- Maximum of a nonempty list (`np.max`); 0 for the empty list. -/
def listMax : List ℚ → ℚ
  | [] => 0
  | x :: xs => xs.foldl max x

/-- The modal ("peak") depth computed by `analyze_depth_quality`
(depth_calibration_diagnosis.py lines 70-74): the midpoint of the
first maximal bin of the 50-bin histogram of the valid depths. -/
def peakDepth (v : List ℚ) : ℚ :=
  let lohi := histRange (listMin v) (listMax v)
  let k := argmaxFirst (histCounts v lohi.1 lohi.2)
  (binEdge lohi.1 lohi.2 k + binEdge lohi.1 lohi.2 (k + 1)) / 2

/-- Statistics of the valid samples returned by
`analyze_depth_quality` when at least one sample is valid
(depth_calibration_diagnosis.py lines 91-98).  `varDepth` is the exact
variance; numpy's `std` is its square root.  The gradient noise
analysis (lines 77-89) is print-only, not part of the returned
dictionary, and is not modelled. -/
structure DepthStats where
  min_depth : ℚ
  max_depth : ℚ
  mean_depth : ℚ
  varDepth : ℚ
  peak_depth : ℚ
deriving DecidableEq, Repr

/-- Report of `analyze_depth_quality` (depth_calibration_diagnosis.py
lines 37-98): the validity percentage is always computed and printed;
when no sample is valid the function warns and returns early with
every derived statistic omitted (`stats = none`). -/
structure QualityReport where
  validPct : ℚ
  no_valid_depth : Bool
  stats : Option DepthStats
deriving DecidableEq, Repr

/-- Embedding of `analyze_depth_quality`
(depth_calibration_diagnosis.py lines 37-98). -/
def analyze_depth_quality (d : DepthMap) : QualityReport :=
  let valid := validDepths d
  let pct := (valid.length : ℚ) / (d.data.length : ℚ) * 100
  if valid = [] then
    { validPct := pct, no_valid_depth := true, stats := none }
  else
    let mean := valid.sum / (valid.length : ℚ)
    { validPct := pct
      no_valid_depth := false
      stats := some
        { min_depth := listMin valid
          max_depth := listMax valid
          mean_depth := mean
          varDepth := (valid.map fun x => (x - mean) ^ 2).sum / (valid.length : ℚ)
          peak_depth := peakDepth valid } }

/-- A 3×3 matrix of exact rationals, entry `eRC` at row R, column C
(the camera intrinsic matrices and rotation matrix parsed by
`load_camera_parameters`). -/
structure Mat3 where
  e00 : ℚ
  e01 : ℚ
  e02 : ℚ
  e10 : ℚ
  e11 : ℚ
  e12 : ℚ
  e20 : ℚ
  e21 : ℚ
  e22 : ℚ
deriving DecidableEq, Repr

/-- The parsed stereo rig parameters used by `check_camera_alignment`
(camera_diagnosis.py): left and right intrinsic matrices, the rotation
matrix, and the translation vector (millimeters).  Distortion vectors
are loaded by the source but unused by the alignment check. -/
structure CameraRig where
  camL : Mat3
  camR : Mat3
  rot : Mat3
  tx : ℚ
  ty : ℚ
  tz : ℚ

/-- Squared norm of the rig's translation vector; the baseline
`np.linalg.norm(T)` is its square root. -/
def baselineSq (rig : CameraRig) : ℚ :=
  rig.tx ^ 2 + rig.ty ^ 2 + rig.tz ^ 2

/-- Deviation report of `check_camera_alignment` (camera_diagnosis.py
lines 172-220): principal-point and focal-length deltas, the baseline
length, and the three advisory warnings printed at lines 213-218.  The
Euler-angle printout (`cv.RQDecomp3x3`, line 208) is trigonometric and
not modelled; no claim constrains it. -/
structure AlignmentReport where
  dcx : ℚ
  dcy : ℚ
  dfx : ℚ
  dfy : ℚ
  baselineSqVal : ℚ
  ppWarn : Prop
  flWarn : Prop
  blWarn : Prop

/-- Embedding of `check_camera_alignment` (camera_diagnosis.py lines
172-220).  The printed baseline is `Real.sqrt baselineSqVal`; the
squared value is stored so the report stays an exact rational
record. -/
def check_camera_alignment (rig : CameraRig) : AlignmentReport :=
  let dcx := |rig.camL.e02 - rig.camR.e02|
  let dcy := |rig.camL.e12 - rig.camR.e12|
  let dfx := |rig.camL.e00 - rig.camR.e00|
  let dfy := |rig.camL.e11 - rig.camR.e11|
  { dcx := dcx
    dcy := dcy
    dfx := dfx
    dfy := dfy
    baselineSqVal := baselineSq rig
    ppWarn := dcx > 50 ∨ dcy > 50
    flWarn := dfx > 20 ∨ dfy > 20
    blWarn := Real.sqrt ((baselineSq rig : ℚ) : ℝ) < 10 ∨
      Real.sqrt ((baselineSq rig : ℚ) : ℝ) > 200 }

/-- Device-qualified file name for the left intrinsics file requested
by `load_camera_parameters` (depth_analysis.py line 16). -/
def leftIntrinsicsFile (device_name : String) : String :=
  "camera_parameters/camera0_intrinsics" ++ device_name ++ ".dat"

/-- Device-qualified file name for the right intrinsics file
(depth_analysis.py line 52). -/
def rightIntrinsicsFile (device_name : String) : String :=
  "camera_parameters/camera1_intrinsics" ++ device_name ++ ".dat"

/-- Device-qualified file name for the extrinsics file
(depth_analysis.py line 88). -/
def rotTransFile (device_name : String) : String :=
  "camera_parameters/camera1_rot_trans" ++ device_name ++ ".dat"

/-- The single-file fallback of `load_camera_parameters`: the
qualified name when it exists, otherwise the unqualified base name
(the variable reassignment at depth_analysis.py lines 17-18, 53-54,
89-90). -/
def resolveParamFile (exists? : String → Bool) (qualified base : String) : String :=
  if exists? qualified then qualified else base

/-- Embedding of the file-resolution skeleton of
`load_camera_parameters` (depth_analysis.py lines 12-134) over an
abstract file-existence predicate: each of the three parameter files
falls back from the device-qualified name to the base name; if the
fallback name is also absent the function fails with the printed
error message naming that file and returns no parameters (`None` in
the source — never default values).  The returned triple is the list
of file names the parser goes on to read. -/
def load_camera_parameters (exists? : String → Bool) (device_name : String) :
    Except String (String × String × String) :=
  let leftF := resolveParamFile exists? (leftIntrinsicsFile device_name)
    "camera_parameters/camera0_intrinsics.dat"
  if exists? leftF = false then Except.error ("错误：找不到左相机内参文件 " ++ leftF)
  else
    let rightF := resolveParamFile exists? (rightIntrinsicsFile device_name)
      "camera_parameters/camera1_intrinsics.dat"
    if exists? rightF = false then Except.error ("错误：找不到右相机内参文件 " ++ rightF)
    else
      let rotF := resolveParamFile exists? (rotTransFile device_name)
        "camera_parameters/camera1_rot_trans.dat"
      if exists? rotF = false then Except.error ("错误：找不到旋转平移文件 " ++ rotF)
      else Except.ok (leftF, rightF, rotF)

/-- C1: for ROI pairs whose widths or heights differ,
`analyze_roi_consistency` reports exactly one of two results: the
unified region `(max x, max y, min right - max x, min bottom - max y)`
when that intersection has positive width and height, and the
suggested common size `(min w, min h)` otherwise. -/
theorem c1_roi_unification (r1 r2 : ROI) (h : r1.w ≠ r2.w ∨ r1.h ≠ r2.h) :
    analyze_roi_consistency r1 r2 =
      (if 0 < min (r1.x + r1.w) (r2.x + r2.w) - max r1.x r2.x ∧
          0 < min (r1.y + r1.h) (r2.y + r2.h) - max r1.y r2.y then
        RoiCheck.unified (max r1.x r2.x) (max r1.y r2.y)
          (min (r1.x + r1.w) (r2.x + r2.w) - max r1.x r2.x)
          (min (r1.y + r1.h) (r2.y + r2.h) - max r1.y r2.y)
      else
        RoiCheck.suggested (min r1.w r2.w) (min r1.h r2.h)) := by
  unfold analyze_roi_consistency
  rw [if_pos h]
  by_cases hx : max r1.x r2.x < min (r1.x + r1.w) (r2.x + r2.w)
  · by_cases hy : max r1.y r2.y < min (r1.y + r1.h) (r2.y + r2.h)
    · rw [if_pos ⟨hx, hy⟩, if_pos ⟨sub_pos.mpr hx, sub_pos.mpr hy⟩]
    · rw [if_neg (fun hc => hy hc.2), if_neg (fun hc => hy (sub_pos.mp hc.2))]
  · rw [if_neg (fun hc => hx hc.1), if_neg (fun hc => hx (sub_pos.mp hc.1))]

/-- Witness for C1 at a concrete overlapping pair with differing
heights. -/
theorem c1_roi_unification_witness :
    ((⟨0, 0, 4, 4⟩ : ROI).w ≠ (⟨1, 1, 4, 5⟩ : ROI).w ∨
      (⟨0, 0, 4, 4⟩ : ROI).h ≠ (⟨1, 1, 4, 5⟩ : ROI).h) ∧
    analyze_roi_consistency ⟨0, 0, 4, 4⟩ ⟨1, 1, 4, 5⟩ =
      (if 0 < min ((0:ℤ) + 4) (1 + 4) - max (0:ℤ) 1 ∧
          0 < min ((0:ℤ) + 4) (1 + 5) - max (0:ℤ) 1 then
        RoiCheck.unified (max (0:ℤ) 1) (max (0:ℤ) 1)
          (min ((0:ℤ) + 4) (1 + 4) - max (0:ℤ) 1)
          (min ((0:ℤ) + 4) (1 + 5) - max (0:ℤ) 1)
      else
        RoiCheck.suggested (min (4:ℤ) 4) (min (4:ℤ) 5)) :=
  ⟨by decide, c1_roi_unification ⟨0, 0, 4, 4⟩ ⟨1, 1, 4, 5⟩ (by decide)⟩

/-- C4: each recommendation rule fires at exactly its fixed threshold,
independently of the other rules: the outlier-rejection suggestion
`max(5, std·100)` appears iff the ratio standard deviation exceeds 0.2,
the outlier-detection suggestion with threshold 2.0 appears iff the
large-difference percentage exceeds 20, and the layered-calibration
suggestion with 5 layers appears iff the RMS residual exceeds 20 mm. -/
theorem c4_recommendation_thresholds (a : AnalysisNums) (t u : ℚ) (n : ℕ) :
    (Advice.ransacLower t ∈ suggest_calibration_parameters a ↔
      ∃ s, a.stdR = some s ∧ s > 0.2 ∧ t = max 5 (s * 100)) ∧
    (Advice.outlierEnable u ∈ suggest_calibration_parameters a ↔
      ∃ p, a.largeDiffPct = some p ∧ p > 20 ∧ u = 2) ∧
    (Advice.layered n ∈ suggest_calibration_parameters a ↔
      ∃ e, a.rmsErr = some e ∧ e > 20 ∧ n = 5) := by
  obtain ⟨s?, p?, e?⟩ := a
  unfold suggest_calibration_parameters
  rcases s? with _ | s <;> rcases p? with _ | p <;> rcases e? with _ | e <;>
    simp only [] <;> (try split_ifs) <;>
    simp_all [List.mem_append, eq_comm]

/-- C5: each alignment advisory fires exactly at its threshold,
independently of the others: the principal-point warning iff
`max(Δcx, Δcy) > 50` px, the focal-length warning iff
`max(Δfx, Δfy) > 20` px, and the baseline warning iff
`‖T‖ < 10` or `‖T‖ > 200` mm (equivalently `‖T‖² < 100` or
`‖T‖² > 40000`); the deviation report fields are always populated,
whatever the flags. -/
theorem c5_alignment_flags (rig : CameraRig) :
    ((check_camera_alignment rig).ppWarn ↔
      max |rig.camL.e02 - rig.camR.e02| |rig.camL.e12 - rig.camR.e12| > 50) ∧
    ((check_camera_alignment rig).flWarn ↔
      max |rig.camL.e00 - rig.camR.e00| |rig.camL.e11 - rig.camR.e11| > 20) ∧
    ((check_camera_alignment rig).blWarn ↔
      (((baselineSq rig : ℚ) : ℝ) < 100 ∨ ((baselineSq rig : ℚ) : ℝ) > 40000)) ∧
    (check_camera_alignment rig).dcx = |rig.camL.e02 - rig.camR.e02| ∧
    (check_camera_alignment rig).dcy = |rig.camL.e12 - rig.camR.e12| ∧
    (check_camera_alignment rig).dfx = |rig.camL.e00 - rig.camR.e00| ∧
    (check_camera_alignment rig).dfy = |rig.camL.e11 - rig.camR.e11| ∧
    (check_camera_alignment rig).baselineSqVal = baselineSq rig := by
  have hnn : (0 : ℝ) ≤ ((baselineSq rig : ℚ) : ℝ) := by
    unfold baselineSq; positivity
  refine ⟨?_, ?_, ?_, rfl, rfl, rfl, rfl, rfl⟩
  · show (_ ∨ _) ↔ _
    simp only [gt_iff_lt, lt_sup_iff]
  · show (_ ∨ _) ↔ _
    simp only [gt_iff_lt, lt_sup_iff]
  · show (Real.sqrt _ < 10 ∨ Real.sqrt _ > 200) ↔ _
    rw [gt_iff_lt, Real.sqrt_lt' (by norm_num : (0:ℝ) < 10),
      Real.lt_sqrt (by norm_num : (0:ℝ) ≤ 200)]
    norm_num

/-- C8: the parameter loader reads the device-qualified file name when
it exists and otherwise falls back to the unqualified base name, for
each of the three parameter files; a successful load returns only
existing files (never defaults), and when neither variant of a file
exists the load fails with the error message naming the missing
file. -/
theorem c8_parameter_file_fallback (ex : String → Bool) (dn : String) :
    (∀ q b, ex q = true → resolveParamFile ex q b = q) ∧
    (∀ q b, ex q = false → resolveParamFile ex q b = b) ∧
    (∀ l r t, load_camera_parameters ex dn = Except.ok (l, r, t) →
      ex l = true ∧ ex r = true ∧ ex t = true ∧
      l = resolveParamFile ex (leftIntrinsicsFile dn)
        "camera_parameters/camera0_intrinsics.dat" ∧
      r = resolveParamFile ex (rightIntrinsicsFile dn)
        "camera_parameters/camera1_intrinsics.dat" ∧
      t = resolveParamFile ex (rotTransFile dn)
        "camera_parameters/camera1_rot_trans.dat") ∧
    (ex (leftIntrinsicsFile dn) = false →
      ex "camera_parameters/camera0_intrinsics.dat" = false →
      load_camera_parameters ex dn =
        Except.error "错误：找不到左相机内参文件 camera_parameters/camera0_intrinsics.dat") ∧
    (∀ e, load_camera_parameters ex dn = Except.error e →
      ∃ f, ex f = false ∧
        (e = "错误：找不到左相机内参文件 " ++ f ∨
         e = "错误：找不到右相机内参文件 " ++ f ∨
         e = "错误：找不到旋转平移文件 " ++ f)) := by
  refine ⟨fun q b hq => by simp [resolveParamFile, hq],
    fun q b hq => by simp [resolveParamFile, hq], ?_, ?_, ?_⟩
  · intro l r t h
    simp only [load_camera_parameters] at h
    split_ifs at h with h1 h2 h3 <;>
      first
        | exact Except.noConfusion h
        | (rw [Except.ok.injEq, Prod.mk.injEq, Prod.mk.injEq] at h
           obtain ⟨rfl, rfl, rfl⟩ := h
           exact ⟨by simp_all, by simp_all, by simp_all, rfl, rfl, rfl⟩)
  · intro h1 h2
    have hres : resolveParamFile ex (leftIntrinsicsFile dn)
        "camera_parameters/camera0_intrinsics.dat" =
        "camera_parameters/camera0_intrinsics.dat" := by
      simp [resolveParamFile, h1]
    simp only [load_camera_parameters, hres, h2, eq_self_iff_true, if_true]
    rfl
  · intro e h
    simp only [load_camera_parameters] at h
    split_ifs at h with h1 h2 h3 <;>
      first
        | exact Except.noConfusion h
        | exact ⟨_, by simp_all, Or.inl (Except.error.inj h).symm⟩
        | exact ⟨_, by simp_all, Or.inr (Or.inl (Except.error.inj h).symm)⟩
        | exact ⟨_, by simp_all, Or.inr (Or.inr (Except.error.inj h).symm)⟩

/-- Witness for C8: a file system holding only the three unqualified
base files, queried with device suffix `"_device2"`, falls back to the
base names and succeeds on exactly those files. -/
theorem c8_parameter_file_fallback_witness :
    load_camera_parameters
        (fun s => s == "camera_parameters/camera0_intrinsics.dat" ||
          s == "camera_parameters/camera1_intrinsics.dat" ||
          s == "camera_parameters/camera1_rot_trans.dat") "_device2" =
      Except.ok ("camera_parameters/camera0_intrinsics.dat",
        "camera_parameters/camera1_intrinsics.dat",
        "camera_parameters/camera1_rot_trans.dat") ∧
    ((fun s => s == "camera_parameters/camera0_intrinsics.dat" ||
        s == "camera_parameters/camera1_intrinsics.dat" ||
        s == "camera_parameters/camera1_rot_trans.dat") (leftIntrinsicsFile "_device2") = false →
      resolveParamFile
        (fun s => s == "camera_parameters/camera0_intrinsics.dat" ||
          s == "camera_parameters/camera1_intrinsics.dat" ||
          s == "camera_parameters/camera1_rot_trans.dat")
        (leftIntrinsicsFile "_device2") "camera_parameters/camera0_intrinsics.dat" =
        "camera_parameters/camera0_intrinsics.dat") := by
  constructor
  · rfl
  · intro h
    exact (c8_parameter_file_fallback
      (fun s => s == "camera_parameters/camera0_intrinsics.dat" ||
        s == "camera_parameters/camera1_intrinsics.dat" ||
        s == "camera_parameters/camera1_rot_trans.dat") "_device2").2.1 _ _ h

/-- C7: a depth map with at least one sample, all of them invalid
(`≤ 0`), yields a report with validity percentage 0 and the
no-valid-depth warning, every derived statistic omitted, and a
provably nonzero divisor in the validity-percentage computation. -/
theorem c7_all_invalid_report (d : DepthMap) (hne : d.data ≠ [])
    (hall : ∀ x ∈ d.data, x ≤ 0) :
    ((d.data.length : ℚ) ≠ 0) ∧
    analyze_depth_quality d =
      { validPct := 0, no_valid_depth := true, stats := none } := by
  have hv : validDepths d = [] := by
    unfold validDepths
    rw [List.filter_eq_nil_iff]
    intro a ha
    simpa using not_lt.mpr (hall a ha)
  constructor
  · have hlen : d.data.length ≠ 0 := fun h0 => hne (List.length_eq_zero.mp h0)
    exact_mod_cast hlen
  · unfold analyze_depth_quality
    rw [hv]
    simp

/-- Witness for C7 at the concrete map `[0, -1]`. -/
theorem c7_all_invalid_report_witness :
    (((⟨1, 2, [0, -1]⟩ : DepthMap).data.length : ℚ) ≠ 0) ∧
    analyze_depth_quality ⟨1, 2, [0, -1]⟩ =
      { validPct := 0, no_valid_depth := true, stats := none } :=
  c7_all_invalid_report ⟨1, 2, [0, -1]⟩ (by simp)
    (by
      intro x hx
      simp only [List.mem_cons, List.not_mem_nil, or_false] at hx
      rcases hx with rfl | rfl <;> norm_num)

/-- C10: for equal-sized maps with at least one jointly valid sample,
the comparator succeeds and every pair entering the ratio computation
has a strictly positive mono divisor, so each ratio is a genuine
(finite) quotient: multiplying it back by the divisor recovers the
stereo value. -/
theorem c10_ratio_divisor_positive (mono stereo : DepthMap)
    (hr : mono.rows = stereo.rows) (hc : mono.cols = stereo.cols)
    (hne : jointValidPairs mono stereo ≠ []) :
    (∃ res, compare_depth_maps mono stereo = some res) ∧
    ∀ p ∈ jointValidPairs mono stereo, 0 < p.1 ∧ p.2 / p.1 * p.1 = p.2 := by
  have hmem : ∀ p ∈ jointValidPairs mono stereo, 0 < p.1 ∧ 0 < p.2 := by
    intro p hp
    unfold jointValidPairs at hp
    have hcond := List.of_mem_filter hp
    simpa using hcond
  constructor
  · have h2 : resizeToMatch mono stereo = stereo := by
      unfold resizeToMatch
      exact if_pos ⟨hr, hc⟩
    unfold compare_depth_maps
    rw [h2]
    simp only [compareStats]
    rw [if_neg hne]
    exact ⟨_, rfl⟩
  · intro p hp
    exact ⟨(hmem p hp).1, div_mul_cancel₀ p.2 (ne_of_gt (hmem p hp).1)⟩

/-- Witness for C10 at concrete maps with one jointly valid pair. -/
theorem c10_ratio_divisor_positive_witness :
    ((⟨1, 2, [100, 0]⟩ : DepthMap).rows = (⟨1, 2, [50, 60]⟩ : DepthMap).rows ∧
      (⟨1, 2, [100, 0]⟩ : DepthMap).cols = (⟨1, 2, [50, 60]⟩ : DepthMap).cols ∧
      jointValidPairs ⟨1, 2, [100, 0]⟩ ⟨1, 2, [50, 60]⟩ ≠ []) ∧
    ((∃ res, compare_depth_maps ⟨1, 2, [100, 0]⟩ ⟨1, 2, [50, 60]⟩ = some res) ∧
      ∀ p ∈ jointValidPairs ⟨1, 2, [100, 0]⟩ ⟨1, 2, [50, 60]⟩,
        0 < p.1 ∧ p.2 / p.1 * p.1 = p.2) := by
  have hp : jointValidPairs ⟨1, 2, [100, 0]⟩ ⟨1, 2, [50, 60]⟩ = [((100 : ℚ), (50 : ℚ))] := by
    norm_num [jointValidPairs]
  exact ⟨⟨rfl, rfl, by rw [hp]; simp⟩,
    c10_ratio_divisor_positive _ _ rfl rfl (by rw [hp]; simp)⟩

/-- C2 evaluation: resizing the one-row map `[0, 100, 100]` (first
sample invalid) onto two columns with the comparator's bilinear
`cv2.resize` yields `[25, 100]`: the output position that the invalid
input sample maps onto interpolates across the sentinel and becomes
the positive depth 25 mm, and this corrupted sample then enters the
jointly valid mask of `compare_depth_maps` paired with the mono
value 100. -/
theorem c2_bilinear_blends_sentinel :
    bilinearResize ⟨1, 3, [0, 100, 100]⟩ 1 2 = ⟨1, 2, [25, 100]⟩ ∧
    jointValidPairs ⟨1, 2, [100, 100]⟩ (bilinearResize ⟨1, 3, [0, 100, 100]⟩ 1 2) =
      [(100, 25), (100, 100)] ∧
    compare_depth_maps ⟨1, 2, [100, 100]⟩ ⟨1, 3, [0, 100, 100]⟩ =
      compare_depth_maps ⟨1, 2, [100, 100]⟩ ⟨1, 2, [25, 100]⟩ := by
  have hres : bilinearResize ⟨1, 3, [0, 100, 100]⟩ 1 2 = ⟨1, 2, [25, 100]⟩ := by
    have h1 : (⌊(((0:ℚ) + 1/2) * 3 / 2 - 1/2)⌋ : ℤ) = 0 := by norm_num
    have h2 : (⌊(((1:ℚ) + 1/2) * 3 / 2 - 1/2)⌋ : ℤ) = 1 := by norm_num
    have h0 : (⌊(((0:ℚ) + 1/2) * 1 / 1 - 1/2)⌋ : ℤ) = 0 := by norm_num
    simp only [bilinearResize, srcCoord, getClamped, List.range_succ]
    have ht : Int.toNat 2 = 2 := rfl
    norm_num [h0, h1, h2, -Int.self_sub_floor, ht, List.getD]
  have hA : resizeToMatch ⟨1, 2, [100, 100]⟩ ⟨1, 3, [0, 100, 100]⟩ = ⟨1, 2, [25, 100]⟩ := by
    unfold resizeToMatch
    rw [if_neg (by simp)]
    exact hres
  have hB : resizeToMatch ⟨1, 2, [100, 100]⟩ ⟨1, 2, [25, 100]⟩ = ⟨1, 2, [25, 100]⟩ := by
    unfold resizeToMatch
    rw [if_pos ⟨rfl, rfl⟩]
  refine ⟨hres, ?_, ?_⟩
  · rw [hres]
    norm_num [jointValidPairs]
  · unfold compare_depth_maps
    rw [hA, hB]

/-- C3 counterexample: on depth maps with exactly one jointly valid
sample (and hence zero-variance mono input), the source does not fail
with an insufficient-data error — it still reports a scale factor,
bias, and residual errors (numpy's rank-deficient least-squares
output: scale 1, bias 100 here). -/
theorem c3_counterexample_one_sample_fits :
    analyze_calibration_quality ⟨1, 2, [100, 0]⟩ ⟨1, 2, [200, 300]⟩ =
      some { scale_factor := 1, bias := 100, msError := 0, max_error := 0 } := by
  have hp : jointValidPairs ⟨1, 2, [100, 0]⟩ ⟨1, 2, [200, 300]⟩ =
      [((100 : ℚ), (200 : ℚ))] := by
    norm_num [jointValidPairs]
  have hfit : polyfit1 [((100 : ℚ), (200 : ℚ))] = (1, 100) := by
    norm_num [polyfit1]
  simp only [analyze_calibration_quality, hp, hfit]
  norm_num

/-- C3 amended: `analyze_calibration_quality` fails (returns no scale,
bias, or residual report) exactly when there are zero jointly valid
samples; with one jointly valid sample, or nonzero samples of zero
mono variance, it still returns a fitted report.  The grid-dimension
hypotheses record the domain on which the source's element-wise
masking is defined. -/
theorem c3_failure_iff_no_joint_samples (mono stereo : DepthMap)
    (_hr : mono.rows = stereo.rows) (_hc : mono.cols = stereo.cols) :
    (analyze_calibration_quality mono stereo = none ↔
      jointValidPairs mono stereo = []) := by
  by_cases h : jointValidPairs mono stereo = [] <;>
    simp [analyze_calibration_quality, h]

/-- Witness for C3's amended theorem at the one-sample input. -/
theorem c3_failure_iff_no_joint_samples_witness :
    (analyze_calibration_quality ⟨1, 2, [100, 0]⟩ ⟨1, 2, [200, 300]⟩ = none ↔
      jointValidPairs ⟨1, 2, [100, 0]⟩ ⟨1, 2, [200, 300]⟩ = []) :=
  c3_failure_iff_no_joint_samples ⟨1, 2, [100, 0]⟩ ⟨1, 2, [200, 300]⟩ rfl rfl

/-- Zipping a list with itself pairs each element with itself. -/
theorem zip_self_eq_map (l : List ℚ) : l.zip l = l.map fun a => (a, a) := by
  induction l with
  | nil => rfl
  | cons x t ih => simp [List.zip_cons_cons, ih]

/-- The jointly valid pairs of a map with itself are its valid samples
paired with themselves. -/
theorem jointValidPairs_self (d : DepthMap) :
    jointValidPairs d d = (validDepths d).map fun a => (a, a) := by
  unfold jointValidPairs validDepths
  rw [zip_self_eq_map, List.filter_map]
  congr 1
  apply List.filter_congr
  intro a _
  simp [Bool.and_self, Function.comp]

/-- Every valid depth sample is strictly positive. -/
theorem validDepths_pos (d : DepthMap) : ∀ a ∈ validDepths d, 0 < a := by
  intro a ha
  unfold validDepths at ha
  simpa using List.of_mem_filter ha

/-- Mapping a constant over a list gives a replicate. -/
theorem map_const_eq_replicate (l : List ℚ) (c : ℚ) :
    (l.map fun _ => c) = List.replicate l.length c := by
  induction l with
  | nil => rfl
  | cons x t ih => simp [ih, List.replicate_succ]

/-- Mapping a constant over any list gives a replicate (generic
element types). -/
theorem map_const_eq_replicate' {α β : Type} (l : List α) (c : β) :
    (l.map fun _ => c) = List.replicate l.length c := by
  induction l with
  | nil => rfl
  | cons x t ih => simp [ih, List.replicate_succ]

/-- Folding `max` with seed 0 over a zero replicate gives 0. -/
theorem foldr_max_replicate_zero (n : ℕ) :
    (List.replicate n (0 : ℚ)).foldr max 0 = 0 := by
  induction n with
  | zero => rfl
  | succ k ih => simp [List.replicate_succ, ih]

/-- Expansion of a centered sum of squares. -/
theorem sum_centered_sq (l : List ℚ) (t : ℚ) :
    (l.map fun x => (x - t) ^ 2).sum =
      (l.map fun x => x ^ 2).sum - 2 * t * l.sum + l.length * t ^ 2 := by
  induction l with
  | nil => simp
  | cons x xs ih =>
      simp only [List.map_cons, List.sum_cons, ih, List.length_cons]
      push_cast
      ring

/-- A list of nonnegative terms with one positive member has positive
sum. -/
theorem sum_pos_of_mem_pos (l : List ℚ) (hnn : ∀ x ∈ l, 0 ≤ x)
    (x : ℚ) (hx : x ∈ l) (hxpos : 0 < x) : 0 < l.sum := by
  induction l with
  | nil => cases hx
  | cons y t ih =>
      rw [List.sum_cons]
      rcases List.mem_cons.mp hx with rfl | hxt
      · have ht : 0 ≤ t.sum :=
          List.sum_nonneg fun z hz => hnn z (List.mem_cons_of_mem _ hz)
        linarith
      · have hy : 0 ≤ y := hnn y (List.mem_cons_self y t)
        have ht : 0 < t.sum :=
          ih (fun z hz => hnn z (List.mem_cons_of_mem _ hz)) hxt
        linarith

/-- The least-squares determinant `n·Σx² − (Σx)²` is positive whenever
the list holds two distinct values. -/
theorem det_pos_of_two_distinct (l : List ℚ) (a b : ℚ)
    (ha : a ∈ l) (hb : b ∈ l) (hab : a ≠ b) :
    0 < (l.length : ℚ) * (l.map fun x => x ^ 2).sum - l.sum ^ 2 := by
  have hn0 : (0 : ℚ) < l.length := by
    exact_mod_cast List.length_pos.mpr (List.ne_nil_of_mem ha)
  have hex : ∃ x ∈ l, x ≠ l.sum / l.length := by
    by_contra hc
    push_neg at hc
    exact hab ((hc a ha).trans (hc b hb).symm)
  obtain ⟨x, hx, hxne⟩ := hex
  have hpos : 0 < (l.map fun y => (y - l.sum / l.length) ^ 2).sum := by
    refine sum_pos_of_mem_pos _ (fun z hz => ?_) ((x - l.sum / l.length) ^ 2)
      (List.mem_map_of_mem _ hx) (pow_two_pos_of_ne_zero (sub_ne_zero.mpr hxne))
    obtain ⟨y, -, rfl⟩ := List.mem_map.mp hz
    positivity
  have hkey := sum_centered_sq l (l.sum / l.length)
  rw [hkey] at hpos
  have hne : (l.length : ℚ) ≠ 0 := ne_of_gt hn0
  have : 0 < ((l.map fun x => x ^ 2).sum - 2 * (l.sum / l.length) * l.sum +
      l.length * (l.sum / l.length) ^ 2) * l.length := mul_pos hpos hn0
  calc 0 < ((l.map fun x => x ^ 2).sum - 2 * (l.sum / l.length) * l.sum +
        l.length * (l.sum / l.length) ^ 2) * l.length := this
    _ = (l.length : ℚ) * (l.map fun x => x ^ 2).sum - l.sum ^ 2 := by
        field_simp
        ring

/-- C6: comparing a depth map with itself (at least one valid sample)
yields ratio mean 1, ratio variance 0 (hence standard deviation
`√0 = 0`), difference mean 0, and large-difference percentage 0; and
when the valid samples take at least two distinct values the linear
fit returns scale 1, bias 0, and zero mean-squared residual (hence
RMS error 0). -/
theorem c6_self_comparison (d : DepthMap) (hv : validDepths d ≠ []) :
    compare_depth_maps d d = some
      { ratioMean := 1, ratioVar := 0, diffMean := 0, diffVar := 0,
        maxAbsDiff := 0, largeDiffPct := 0 } ∧
    (∀ r, compare_depth_maps d d = some r → Real.sqrt (r.ratioVar : ℝ) = 0) ∧
    ((∃ a ∈ validDepths d, ∃ b ∈ validDepths d, a ≠ b) →
      analyze_calibration_quality d d = some
        { scale_factor := 1, bias := 0, msError := 0, max_error := 0 } ∧
      ∀ f, analyze_calibration_quality d d = some f →
        Real.sqrt (f.msError : ℝ) = 0) := by
  have hpairs := jointValidPairs_self d
  have hpos := validDepths_pos d
  have hn : ((validDepths d).length : ℚ) ≠ 0 := by
    exact_mod_cast (List.length_pos.mpr hv).ne'
  have hpne : jointValidPairs d d ≠ [] := by
    rw [hpairs]
    simpa using hv
  have hplen : ((jointValidPairs d d).length : ℚ) = ((validDepths d).length : ℚ) := by
    rw [hpairs, List.length_map]
  have hratios : ((jointValidPairs d d).map fun p => p.2 / p.1) =
      List.replicate (validDepths d).length 1 := by
    rw [hpairs, List.map_map]
    rw [List.map_congr_left (g := fun _ => (1 : ℚ))
      (fun a ha => by simp [Function.comp, div_self (ne_of_gt (hpos a ha))])]
    exact map_const_eq_replicate _ _
  have hdiffs : ((jointValidPairs d d).map fun p => p.2 - p.1) =
      List.replicate (validDepths d).length 0 := by
    rw [hpairs, List.map_map]
    rw [show ((fun p : ℚ × ℚ => p.2 - p.1) ∘ fun a => (a, a)) = fun _ => (0 : ℚ) from
      funext fun a => by show a - a = (0 : ℚ); ring]
    exact map_const_eq_replicate _ _
  have hcmp : compare_depth_maps d d = compareStats d d := by
    unfold compare_depth_maps
    rw [show resizeToMatch d d = d from by unfold resizeToMatch; exact if_pos ⟨rfl, rfl⟩]
  have hsum1 : (List.replicate (validDepths d).length (1 : ℚ)).sum =
      ((validDepths d).length : ℚ) := by
    simp [List.sum_replicate]
  have hsum0 : (List.replicate (validDepths d).length (0 : ℚ)).sum = 0 := by
    simp [List.sum_replicate]
  have hred : compare_depth_maps d d = some
      { ratioMean := 1, ratioVar := 0, diffMean := 0, diffVar := 0,
        maxAbsDiff := 0, largeDiffPct := 0 } := by
    rw [hcmp]
    simp only [compareStats]
    rw [if_neg hpne]
    simp only [Option.some.injEq, CompareResult.mk.injEq]
    have hmean : ((jointValidPairs d d).map fun p => p.2 / p.1).sum /
        ((jointValidPairs d d).length : ℚ) = 1 := by
      rw [hratios, hsum1, hplen, div_self hn]
    have hdmean : ((jointValidPairs d d).map fun p => p.2 - p.1).sum /
        ((jointValidPairs d d).length : ℚ) = 0 := by
      rw [hdiffs, hsum0, zero_div]
    refine ⟨hmean, ?_, hdmean, ?_, ?_, ?_⟩
    · rw [hmean, hratios]
      simp [List.map_replicate, List.sum_replicate]
    · rw [hdmean, hdiffs]
      simp [List.map_replicate, List.sum_replicate]
    · rw [hdiffs]
      simp only [List.map_replicate, abs_zero]
      exact foldr_max_replicate_zero _
    · rw [hdiffs]
      have : (List.replicate (validDepths d).length (0 : ℚ)).filter
          (fun x => decide (50 < |x|)) = [] := by
        refine List.filter_eq_nil_iff.mpr fun a ha => ?_
        rw [List.eq_of_mem_replicate ha]
        simp
      rw [this]
      simp
  refine ⟨hred, ?_, ?_⟩
  · intro r hr
    rw [hred] at hr
    obtain rfl := (Option.some.inj hr).symm
    simp
  · intro hdist
    obtain ⟨a, ha, b, hb, hab⟩ := hdist
    have hxs : ((jointValidPairs d d).map fun p => p.1) = validDepths d := by
      rw [hpairs, List.map_map]
      rw [show ((fun p : ℚ × ℚ => p.1) ∘ fun a => (a, a)) = fun a : ℚ => a from rfl]
      exact List.map_id' _
    have hys : ((jointValidPairs d d).map fun p => p.2) = validDepths d := by
      rw [hpairs, List.map_map]
      rw [show ((fun p : ℚ × ℚ => p.2) ∘ fun a => (a, a)) = fun a : ℚ => a from rfl]
      exact List.map_id' _
    have hxy : ((jointValidPairs d d).map fun p => p.1 * p.2) =
        (validDepths d).map fun x => x ^ 2 := by
      rw [hpairs, List.map_map]
      rw [show ((fun p : ℚ × ℚ => p.1 * p.2) ∘ fun a => (a, a)) = fun x : ℚ => x ^ 2 from
        funext fun a => by show a * a = a ^ 2; ring]
    have hsq : ((jointValidPairs d d).map fun p => p.1 ^ 2) =
        (validDepths d).map fun x => x ^ 2 := by
      rw [hpairs, List.map_map]
      rfl
    have hdet : 0 < ((validDepths d).length : ℚ) *
        ((validDepths d).map fun x => x ^ 2).sum - (validDepths d).sum ^ 2 :=
      det_pos_of_two_distinct _ a b ha hb hab
    have hfit : polyfit1 (jointValidPairs d d) = (1, 0) := by
      simp only [polyfit1]
      rw [hxs, hys, hxy, hsq, hplen]
      rw [if_pos (ne_of_gt hdet)]
      have e1 : ((validDepths d).length : ℚ) * ((validDepths d).map fun x => x ^ 2).sum -
          (validDepths d).sum * (validDepths d).sum =
          ((validDepths d).length : ℚ) * ((validDepths d).map fun x => x ^ 2).sum -
          (validDepths d).sum ^ 2 := by ring
      have e2 : (((validDepths d).map fun x => x ^ 2).sum * (validDepths d).sum -
          (validDepths d).sum * ((validDepths d).map fun x => x ^ 2).sum) = 0 := by ring
      rw [e1, e2, div_self (ne_of_gt hdet), zero_div]
    have hres : ((jointValidPairs d d).map fun p => p.2 - (1 * p.1 + 0)) =
        List.replicate (validDepths d).length 0 := by
      rw [hpairs, List.map_map]
      rw [show ((fun p : ℚ × ℚ => p.2 - (1 * p.1 + 0)) ∘ fun a => (a, a)) =
          fun _ => (0 : ℚ) from funext fun a => by show a - (1 * a + 0) = (0 : ℚ); ring]
      exact map_const_eq_replicate _ _
    have hfitred : analyze_calibration_quality d d = some
        { scale_factor := 1, bias := 0, msError := 0, max_error := 0 } := by
      simp only [analyze_calibration_quality]
      rw [if_neg hpne, hfit]
      simp only [Option.some.injEq, FitResult.mk.injEq]
      refine ⟨by trivial, by trivial, ?_, ?_⟩
      · rw [hres]
        simp [List.map_replicate, List.sum_replicate]
      · rw [hres]
        simp only [List.map_replicate, abs_zero]
        exact foldr_max_replicate_zero _
    refine ⟨hfitred, ?_⟩
    intro f hf
    rw [hfitred] at hf
    obtain rfl := (Option.some.inj hf).symm
    simp

/-- Witness for C6 at the concrete map `[100, 200]` (two distinct
valid samples). -/
theorem c6_self_comparison_witness :
    (validDepths ⟨1, 2, [100, 200]⟩ ≠ [] ∧
      (∃ a ∈ validDepths ⟨1, 2, [100, 200]⟩,
        ∃ b ∈ validDepths ⟨1, 2, [100, 200]⟩, a ≠ b)) ∧
    (compare_depth_maps ⟨1, 2, [100, 200]⟩ ⟨1, 2, [100, 200]⟩ = some
      { ratioMean := 1, ratioVar := 0, diffMean := 0, diffVar := 0,
        maxAbsDiff := 0, largeDiffPct := 0 } ∧
    (∀ r, compare_depth_maps ⟨1, 2, [100, 200]⟩ ⟨1, 2, [100, 200]⟩ = some r →
      Real.sqrt (r.ratioVar : ℝ) = 0) ∧
    ((∃ a ∈ validDepths ⟨1, 2, [100, 200]⟩,
        ∃ b ∈ validDepths ⟨1, 2, [100, 200]⟩, a ≠ b) →
      analyze_calibration_quality ⟨1, 2, [100, 200]⟩ ⟨1, 2, [100, 200]⟩ = some
        { scale_factor := 1, bias := 0, msError := 0, max_error := 0 } ∧
      ∀ f, analyze_calibration_quality ⟨1, 2, [100, 200]⟩ ⟨1, 2, [100, 200]⟩ = some f →
        Real.sqrt (f.msError : ℝ) = 0)) := by
  have hv : validDepths ⟨1, 2, [100, 200]⟩ = [100, 200] := by
    norm_num [validDepths]
  refine ⟨⟨by rw [hv]; simp, ?_⟩, c6_self_comparison _ (by rw [hv]; simp)⟩
  exact ⟨100, by rw [hv]; simp, 200, by rw [hv]; simp, by norm_num⟩

/-- An in-bounds `getD` of a list bounded by `M` is bounded by `M`. -/
theorem getD_le_of_all_le {l : List ℕ} {M : ℕ} (h : ∀ a ∈ l, a ≤ M) :
    ∀ k, k < l.length → l.getD k 0 ≤ M := by
  induction l with
  | nil => intro k hk; cases hk
  | cons x t ih =>
      intro k hk
      rcases k with _ | k
      · simpa using h x (List.mem_cons_self x t)
      · simp only [List.getD_cons_succ]
        exact ih (fun a ha => h a (List.mem_cons_of_mem _ ha)) k (by simpa using hk)

/-- Invariant of the `np.argmax` scan `argmaxAux`: either no element
of the remaining list beats the recorded value (and the recorded state
is returned), or the scan returns the position of the first element
that attains the maximum of the remaining list and strictly beats the
recorded value. -/
theorem argmaxAux_spec (xs : List ℕ) : ∀ (i best bv : ℕ),
    (argmaxAux xs i (best, bv) = (best, bv) ∧ ∀ a ∈ xs, a ≤ bv) ∨
    (∃ j, j < xs.length ∧
      argmaxAux xs i (best, bv) = (i + j, xs.getD j 0) ∧
      bv < xs.getD j 0 ∧
      (∀ j2, j2 < xs.length → xs.getD j2 0 ≤ xs.getD j 0) ∧
      (∀ j2, j2 < j → xs.getD j2 0 < xs.getD j 0)) := by
  induction xs with
  | nil =>
      intro i best bv
      exact Or.inl ⟨rfl, by simp⟩
  | cons x xs ih =>
      intro i best bv
      simp only [argmaxAux]
      by_cases hx : bv < x
      · rw [if_pos hx]
        rcases ih (i + 1) i x with ⟨heq, hall⟩ | ⟨j, hj, heq, hlt, hmax, hfirst⟩
        · refine Or.inr ⟨0, by simp, ?_, ?_, ?_, ?_⟩
          · rw [heq]
            simp [List.getD_cons_zero]
          · simpa [List.getD_cons_zero] using hx
          · intro j2 hj2
            rcases j2 with _ | k
            · simp [List.getD_cons_zero]
            · simp only [List.getD_cons_succ, List.getD_cons_zero]
              have hk : k < xs.length := by simpa using hj2
              exact getD_le_of_all_le hall k hk
          · intro j2 hj2
            cases hj2
        · refine Or.inr ⟨j + 1, by simpa using hj, ?_, ?_, ?_, ?_⟩
          · rw [heq]
            simp only [List.getD_cons_succ]
            congr 1
            omega
          · simp only [List.getD_cons_succ]
            exact lt_trans hx hlt
          · intro j2 hj2
            rcases j2 with _ | k
            · simp only [List.getD_cons_zero, List.getD_cons_succ]
              exact le_of_lt hlt
            · simp only [List.getD_cons_succ]
              exact hmax k (by simpa using hj2)
          · intro j2 hj2
            rcases j2 with _ | k
            · simp only [List.getD_cons_zero, List.getD_cons_succ]
              exact hlt
            · simp only [List.getD_cons_succ]
              exact hfirst k (by omega)
      · rw [if_neg hx]
        have hxle : x ≤ bv := le_of_not_lt hx
        rcases ih (i + 1) best bv with ⟨heq, hall⟩ | ⟨j, hj, heq, hlt, hmax, hfirst⟩
        · refine Or.inl ⟨heq, ?_⟩
          intro a ha
          rcases List.mem_cons.mp ha with rfl | hat
          · exact hxle
          · exact hall a hat
        · refine Or.inr ⟨j + 1, by simpa using hj, ?_, ?_, ?_, ?_⟩
          · rw [heq]
            simp only [List.getD_cons_succ]
            congr 1
            omega
          · simp only [List.getD_cons_succ]
            exact hlt
          · intro j2 hj2
            rcases j2 with _ | k
            · simp only [List.getD_cons_zero, List.getD_cons_succ]
              exact le_of_lt (lt_of_le_of_lt hxle hlt)
            · simp only [List.getD_cons_succ]
              exact hmax k (by simpa using hj2)
          · intro j2 hj2
            rcases j2 with _ | k
            · simp only [List.getD_cons_zero, List.getD_cons_succ]
              exact lt_of_le_of_lt hxle hlt
            · simp only [List.getD_cons_succ]
              exact hfirst k (by omega)

/-- `np.argmax` returns an in-bounds index of a maximal element, and
every earlier element is strictly smaller (first-occurrence
tie-break). -/
theorem argmaxFirst_spec (l : List ℕ) (hl : l ≠ []) :
    argmaxFirst l < l.length ∧
    (∀ j, j < l.length → l.getD j 0 ≤ l.getD (argmaxFirst l) 0) ∧
    (∀ j, j < argmaxFirst l → l.getD j 0 < l.getD (argmaxFirst l) 0) := by
  obtain ⟨x, xs, rfl⟩ := List.exists_cons_of_ne_nil hl
  simp only [argmaxFirst]
  rcases argmaxAux_spec xs 1 0 x with ⟨heq, hall⟩ | ⟨j, hj, heq, hlt, hmax, hfirst⟩
  · have h1 : (argmaxAux xs 1 (0, x)).1 = 0 := by rw [heq]
    rw [h1]
    refine ⟨by simp, ?_, ?_⟩
    · intro k hk
      rcases k with _ | k
      · exact le_rfl
      · simp only [List.getD_cons_succ, List.getD_cons_zero]
        exact getD_le_of_all_le hall k (by simpa using hk)
    · intro k hk
      exact absurd hk (Nat.not_lt_zero k)
  · have h1 : (argmaxAux xs 1 (0, x)).1 = 1 + j := by rw [heq]
    rw [h1]
    have hval : (x :: xs).getD (1 + j) 0 = xs.getD j 0 := by
      rw [Nat.add_comm]
      simp only [List.getD_cons_succ]
    refine ⟨by simp only [List.length_cons]; omega, ?_, ?_⟩
    · intro k hk
      rcases k with _ | k
      · rw [hval]
        simp only [List.getD_cons_zero]
        exact le_of_lt hlt
      · rw [hval]
        simp only [List.getD_cons_succ]
        exact hmax k (by simpa using hk)
    · intro k hk
      rcases k with _ | k
      · rw [hval]
        simp only [List.getD_cons_zero]
        exact hlt
      · rw [hval]
        simp only [List.getD_cons_succ]
        exact hfirst k (by omega)

/-- C9 amended: for a depth map with at least one valid sample, the
reported peak depth is the midpoint of bin `k` of the 50-bin
histogram, where the histogram range is the valid depth range
(widened to `(v − 1/2, v + 1/2)` by `np.histogram` when all valid
depths equal `v`), bin `k` has maximal count, and every lower-index
(lower-depth) bin has a strictly smaller count. -/
theorem c9_peak_is_first_maximal_bin (d : DepthMap) (hne : validDepths d ≠ []) :
    ∃ lo hi k s,
      histRange (listMin (validDepths d)) (listMax (validDepths d)) = (lo, hi) ∧
      (analyze_depth_quality d).stats = some s ∧
      s.peak_depth = (binEdge lo hi k + binEdge lo hi (k + 1)) / 2 ∧
      k < 50 ∧
      (∀ j, j < 50 → (histCounts (validDepths d) lo hi).getD j 0 ≤
        (histCounts (validDepths d) lo hi).getD k 0) ∧
      (∀ j, j < k → (histCounts (validDepths d) lo hi).getD j 0 <
        (histCounts (validDepths d) lo hi).getD k 0) := by
  obtain ⟨lo, hi, hrange⟩ : ∃ lo hi,
      histRange (listMin (validDepths d)) (listMax (validDepths d)) = (lo, hi) :=
    ⟨_, _, rfl⟩
  have hlen : (histCounts (validDepths d) lo hi).length = 50 := by
    unfold histCounts
    simp
  have hhne : histCounts (validDepths d) lo hi ≠ [] := by
    intro h0
    rw [h0] at hlen
    simp at hlen
  obtain ⟨hklt, hmax, hfirst⟩ := argmaxFirst_spec _ hhne
  refine ⟨lo, hi, argmaxFirst (histCounts (validDepths d) lo hi),
    { min_depth := listMin (validDepths d)
      max_depth := listMax (validDepths d)
      mean_depth := (validDepths d).sum / ((validDepths d).length : ℚ)
      varDepth := ((validDepths d).map fun x =>
        (x - (validDepths d).sum / ((validDepths d).length : ℚ)) ^ 2).sum /
        ((validDepths d).length : ℚ)
      peak_depth := peakDepth (validDepths d) },
    hrange, ?_, ?_, ?_, ?_, ?_⟩
  · simp only [analyze_depth_quality]
    rw [if_neg hne]
  · show peakDepth (validDepths d) = _
    simp only [peakDepth]
    rw [hrange]
  · rw [hlen] at hklt
    exact hklt
  · intro j hj
    exact hmax j (by rw [hlen]; exact hj)
  · exact hfirst

/-- C9 counterexample: for the constant map `[5]` the source reports
peak depth 5.01, yet every bin of a 50-bin histogram taken over the
valid depth range itself (`[5, 5]`) has midpoint 5 — the source's
histogram range is the widened range `(4.5, 5.5)`, not the valid
depth range. -/
theorem c9_counterexample_constant_map :
    (analyze_depth_quality ⟨1, 1, [5]⟩).stats.map DepthStats.peak_depth =
      some (501 / 100) ∧
    ((List.range 50).map fun i => (binEdge 5 5 i + binEdge 5 5 (i + 1)) / 2) =
      List.replicate 50 5 ∧
    (501 / 100 : ℚ) ∉ List.replicate 50 (5 : ℚ) := by
  have hv : validDepths ⟨1, 1, [5]⟩ = [5] := by
    norm_num [validDepths]
  have hrange : histRange (listMin [(5 : ℚ)]) (listMax [(5 : ℚ)]) = (9/2, 11/2) := by
    norm_num [histRange, listMin, listMax]
  have hbin : binIdx (9/2) (11/2) 5 = 25 := by
    have h : (⌊(((5 : ℚ)) - 9/2) * 50 / (11/2 - 9/2)⌋) = 25 := by norm_num
    unfold binIdx
    rw [h]
    decide
  have hcounts : histCounts [(5 : ℚ)] (9/2) (11/2) =
      (List.range 50).map fun i => if 25 = i then 1 else 0 := by
    unfold histCounts
    refine List.map_congr_left fun i _ => ?_
    by_cases h25 : 25 = i
    · simp [List.filter, hbin, h25]
    · simp [List.filter, hbin, h25]
  have hargmax : argmaxFirst ((List.range 50).map fun i => if 25 = i then 1 else 0) = 25 := by
    decide
  have hpk : peakDepth [(5 : ℚ)] = 501 / 100 := by
    simp only [peakDepth]
    rw [hrange]
    show (binEdge (9/2) (11/2) (argmaxFirst (histCounts [(5:ℚ)] (9/2) (11/2))) +
      binEdge (9/2) (11/2) (argmaxFirst (histCounts [(5:ℚ)] (9/2) (11/2)) + 1)) / 2 = 501 / 100
    rw [hcounts, hargmax]
    norm_num [binEdge]
  refine ⟨?_, ?_, ?_⟩
  · simp only [analyze_depth_quality]
    rw [hv]
    rw [if_neg (by simp)]
    simp only [Option.map_some]
    show some (peakDepth [(5 : ℚ)]) = some (501 / 100)
    rw [hpk]
  · rw [List.map_congr_left (g := fun _ => (5 : ℚ)) fun i _ => by norm_num [binEdge]]
    rw [map_const_eq_replicate']
    simp
  · intro hmem
    have := List.eq_of_mem_replicate hmem
    norm_num at this

/-- Witness for C9's amended theorem at the constant map `[5]`. -/
theorem c9_peak_is_first_maximal_bin_witness :
    validDepths ⟨1, 1, [5]⟩ ≠ [] ∧
    (∃ lo hi k s,
      histRange (listMin (validDepths ⟨1, 1, [5]⟩)) (listMax (validDepths ⟨1, 1, [5]⟩)) =
        (lo, hi) ∧
      (analyze_depth_quality ⟨1, 1, [5]⟩).stats = some s ∧
      s.peak_depth = (binEdge lo hi k + binEdge lo hi (k + 1)) / 2 ∧
      k < 50 ∧
      (∀ j, j < 50 → (histCounts (validDepths ⟨1, 1, [5]⟩) lo hi).getD j 0 ≤
        (histCounts (validDepths ⟨1, 1, [5]⟩) lo hi).getD k 0) ∧
      (∀ j, j < k → (histCounts (validDepths ⟨1, 1, [5]⟩) lo hi).getD j 0 <
        (histCounts (validDepths ⟨1, 1, [5]⟩) lo hi).getD k 0)) :=
  ⟨by norm_num [validDepths], c9_peak_is_first_maximal_bin ⟨1, 1, [5]⟩
    (by norm_num [validDepths])⟩
